import Mathlib

/-!
# Verification of the LSP message classifier/parser

A shallow embedding of `lsp_devtools/handlers/__init__.py`:

* `Py` models the Python values that can appear in a JSON-RPC field
  (`None`, booleans, integers, strings, lists, dicts with string keys).
* `loads` / `dumps` model the behaviour of Python's `json` module on those
  values (restricted to integer numbers; the parser is lenient about
  whitespace and only handles the escapes the encoder can emit).
* `maybe_json`, `LspMessage`, `LspMessage.from_rpc`, the three
  classification predicates and `LspHandler.emit` are translated from the
  source file.

`datetime.fromisoformat` is standard-library code, so `from_rpc` is
parameterised by a timestamp parser `fromiso : String → Option Nat`
(`Nat` standing for an abstract instant); the theorems hold for every
such parser.
-/

mutual

/-- The Python values a JSON-RPC field can hold: `None`, booleans,
integers, strings, lists and string-keyed dicts.  (Floats are outside the
model; no claim concerns them.) -/
inductive Py where
  | none : Py
  | bool (b : Bool) : Py
  | int (n : Int) : Py
  | str (s : String) : Py
  | list (xs : PyList) : Py
  | dict (fields : PyDict) : Py
deriving DecidableEq

inductive PyList where
  | nil : PyList
  | cons (hd : Py) (tl : PyList) : PyList
deriving DecidableEq

inductive PyDict where
  | nil : PyDict
  | cons (key : String) (val : Py) (tl : PyDict) : PyDict
deriving DecidableEq

end

/-- JSON insignificant whitespace. -/
def isWs (c : Char) : Bool :=
  c = ' ' || c = '\t' || c = '\n' || c = '\r'

/-- Drop leading JSON whitespace. -/
def skipWs : List Char → List Char
  | [] => []
  | c :: cs => if isWs c then skipWs cs else c :: cs

theorem skipWs_cons_of_not_ws {c : Char} (h : isWs c = false) (cs : List Char) :
    skipWs (c :: cs) = c :: cs := by
  simp [skipWs, h]

/-- The decimal digit character for `d < 10`. -/
def digitChar : Nat → Char
  | 0 => '0' | 1 => '1' | 2 => '2' | 3 => '3' | 4 => '4'
  | 5 => '5' | 6 => '6' | 7 => '7' | 8 => '8' | 9 => '9'
  | _ => '0'

/-- Numeric value of a decimal digit character. -/
def digitVal (c : Char) : Nat := c.toNat - 48

theorem digitVal_digitChar {d : Nat} (h : d < 10) : digitVal (digitChar d) = d := by
  interval_cases d <;> rfl

theorem isDigit_digitChar {d : Nat} (h : d < 10) : (digitChar d).isDigit = true := by
  interval_cases d <;> decide

/-- Decimal digits of `n`, most significant first. -/
def dumpNatChars (n : Nat) : List Char :=
  if _h : n < 10 then [digitChar n]
  else dumpNatChars (n / 10) ++ [digitChar (n % 10)]
termination_by n
decreasing_by
  exact Nat.div_lt_self (by omega) (by omega)

/-- Read a digit string (most significant first) back as a number. -/
def readNat (ds : List Char) : Nat :=
  ds.foldl (fun a c => a * 10 + digitVal c) 0

theorem readNat_append_digit (ds : List Char) (c : Char) :
    readNat (ds ++ [c]) = readNat ds * 10 + digitVal c := by
  simp [readNat, List.foldl_append]

theorem readNat_dumpNatChars (n : Nat) : readNat (dumpNatChars n) = n := by
  induction n using Nat.strong_induction_on with
  | _ n ih =>
    rw [dumpNatChars]
    split
    case isTrue h =>
      simp [readNat, digitVal_digitChar h]
    case isFalse h =>
      rw [readNat_append_digit, ih (n / 10) (Nat.div_lt_self (by omega) (by omega)),
        digitVal_digitChar (Nat.mod_lt _ (by omega))]
      omega

theorem dumpNatChars_ne_nil (n : Nat) : dumpNatChars n ≠ [] := by
  rw [dumpNatChars]
  split <;> simp

theorem dumpNatChars_all_digits (n : Nat) :
    ∀ c ∈ dumpNatChars n, c.isDigit = true := by
  induction n using Nat.strong_induction_on with
  | _ n ih =>
    rw [dumpNatChars]
    split
    case isTrue h =>
      intro c hc
      simp at hc
      subst hc
      exact isDigit_digitChar h
    case isFalse h =>
      intro c hc
      simp at hc
      rcases hc with hc | hc
      · exact ih (n / 10) (Nat.div_lt_self (by omega) (by omega)) c hc
      · subst hc
        exact isDigit_digitChar (Nat.mod_lt _ (by omega))

/-- Encode one character of a JSON string body, escaping the two characters
the encoder must escape (`"` and `\`). -/
def escapeChar (c : Char) : List Char :=
  if c = '"' || c = '\\' then ['\\', c] else [c]

/-- Encode a JSON string body (everything between the quotes). -/
def escapeChars : List Char → List Char
  | [] => []
  | c :: cs => escapeChar c ++ escapeChars cs

/-- Decode one escape character (the character after a backslash). -/
def unescChar (e : Char) : Option Char :=
  if e = '"' then some '"'
  else if e = '\\' then some '\\'
  else if e = '/' then some '/'
  else if e = 'n' then some '\n'
  else if e = 't' then some '\t'
  else if e = 'r' then some '\r'
  else if e = 'b' then some (Char.ofNat 8)
  else if e = 'f' then some (Char.ofNat 12)
  else Option.none

/-- Parse a JSON string body up to and including the closing quote,
returning the decoded characters and the unconsumed tail. -/
def parseStrChars : List Char → Option (List Char × List Char)
  | [] => Option.none
  | c :: cs =>
    if c = '"' then some ([], cs)
    else if c = '\\' then
      match cs with
      | [] => Option.none
      | e :: cs2 =>
        match unescChar e, parseStrChars cs2 with
        | some d, some (s, rest) => some (d :: s, rest)
        | _, _ => Option.none
    else
      match parseStrChars cs with
      | some (s, rest) => some (c :: s, rest)
      | Option.none => Option.none

theorem parseStrChars_escapeChars (s : List Char) (rest : List Char) :
    parseStrChars (escapeChars s ++ '"' :: rest) = some (s, rest) := by
  induction s with
  | nil =>
    simp only [escapeChars, List.nil_append]
    rw [parseStrChars.eq_def]
    simp
  | cons c cs ih =>
    by_cases h1 : c = '"'
    · subst h1
      have he : escapeChar '"' = ['\\', '"'] := rfl
      simp only [escapeChars, he, List.cons_append]
      rw [parseStrChars.eq_def]
      simp [unescChar, ih]
    · by_cases h2 : c = '\\'
      · subst h2
        have he : escapeChar '\\' = ['\\', '\\'] := rfl
        simp only [escapeChars, he, List.cons_append]
        rw [parseStrChars.eq_def]
        simp [unescChar, ih]
      · have he : escapeChar c = [c] := by simp [escapeChar, h1, h2]
        simp only [escapeChars, he, List.cons_append]
        rw [parseStrChars.eq_def]
        simp [h1, h2, ih]

/-- `true` when the list does not start with a decimal digit (the side
condition under which a number parse followed by this list is unambiguous). -/
def headNotDigit : List Char → Bool
  | [] => true
  | c :: _ => !c.isDigit

theorem takeWhile_digits_append {xs rest : List Char}
    (hall : ∀ c ∈ xs, c.isDigit = true) (hrest : headNotDigit rest = true) :
    (xs ++ rest).takeWhile Char.isDigit = xs ∧
      (xs ++ rest).dropWhile Char.isDigit = rest := by
  induction xs with
  | nil =>
    cases rest with
    | nil => simp
    | cons c cs =>
      simp only [headNotDigit, Bool.not_eq_true'] at hrest
      simp [List.takeWhile, List.dropWhile, hrest]
  | cons x xs ih =>
    have hx : x.isDigit = true := hall x (by simp)
    have ih' := ih (fun c hc => hall c (by simp [hc]))
    simp [List.takeWhile, List.dropWhile, hx, ih'.1, ih'.2]

/-- Parse a nonempty run of decimal digits. -/
def parseNatNum (cs : List Char) : Option (Nat × List Char) :=
  let ds := cs.takeWhile Char.isDigit
  if ds.isEmpty then Option.none
  else some (readNat ds, cs.dropWhile Char.isDigit)

/-- Parse a JSON integer (optional leading minus sign). -/
def parseNum (cs : List Char) : Option (Int × List Char) :=
  match cs with
  | [] => Option.none
  | c :: cs2 =>
    if c = '-' then (parseNatNum cs2).map (fun p => (-(p.1 : Int), p.2))
    else (parseNatNum cs).map (fun p => ((p.1 : Int), p.2))

theorem parseNatNum_dumpNatChars (n : Nat) (rest : List Char)
    (hrest : headNotDigit rest = true) :
    parseNatNum (dumpNatChars n ++ rest) = some (n, rest) := by
  have h := takeWhile_digits_append (dumpNatChars_all_digits n) hrest
  have hne : (dumpNatChars n).isEmpty = false := by
    cases hd : dumpNatChars n with
    | nil => exact absurd hd (dumpNatChars_ne_nil n)
    | cons a l => simp
  simp [parseNatNum, h.1, h.2, hne, readNat_dumpNatChars]

/-- Canonical decimal encoding of an integer. -/
def dumpIntChars (n : Int) : List Char :=
  if n < 0 then '-' :: dumpNatChars (-n).toNat else dumpNatChars n.toNat

theorem digit_not_special {c : Char} (h : c.isDigit = true) :
    c ≠ '"' ∧ c ≠ '[' ∧ c ≠ '{' ∧ c ≠ 'n' ∧ c ≠ 't' ∧ c ≠ 'f' ∧ c ≠ '-' ∧
      c ≠ ']' ∧ c ≠ '}' ∧ c ≠ ',' ∧ c ≠ ':' ∧ isWs c = false := by
  refine ⟨?_, ?_, ?_, ?_, ?_, ?_, ?_, ?_, ?_, ?_, ?_, ?_⟩
  all_goals first
    | (intro heq; subst heq; exact absurd h (by decide))
    | (cases hw : isWs c
       · rfl
       · exfalso
         have : ((c = ' ' ∨ c = '\t') ∨ c = '\n') ∨ c = '\r' := by
           simpa [isWs] using hw
         rcases this with ((h1 | h1) | h1) | h1 <;> (subst h1; exact absurd h (by decide)))

mutual

/-- Fuelled JSON value parser: models `json.loads` reading one value
(leading whitespace allowed), returning the value and the unconsumed tail. -/
def parseVal : Nat → List Char → Option (Py × List Char)
  | 0, _ => Option.none
  | Nat.succ fuel, cs =>
    match skipWs cs with
    | [] => Option.none
    | c :: rest =>
      if c = 'n' then
        match rest with
        | 'u' :: 'l' :: 'l' :: rest2 => some (Py.none, rest2)
        | _ => Option.none
      else if c = 't' then
        match rest with
        | 'r' :: 'u' :: 'e' :: rest2 => some (Py.bool true, rest2)
        | _ => Option.none
      else if c = 'f' then
        match rest with
        | 'a' :: 'l' :: 's' :: 'e' :: rest2 => some (Py.bool false, rest2)
        | _ => Option.none
      else if c = '"' then
        (parseStrChars rest).map (fun p => (Py.str (String.mk p.1), p.2))
      else if c = '[' then
        match skipWs rest with
        | [] => Option.none
        | c2 :: rest2 =>
          if c2 = ']' then some (Py.list PyList.nil, rest2)
          else (parseElems fuel (c2 :: rest2)).map (fun p => (Py.list p.1, p.2))
      else if c = '{' then
        match skipWs rest with
        | [] => Option.none
        | c2 :: rest2 =>
          if c2 = '}' then some (Py.dict PyDict.nil, rest2)
          else (parseMembers fuel (c2 :: rest2)).map (fun p => (Py.dict p.1, p.2))
      else if c = '-' || c.isDigit then
        (parseNum (c :: rest)).map (fun p => (Py.int p.1, p.2))
      else Option.none

/-- Parse the elements of a nonempty JSON array, up to and including the
closing bracket. -/
def parseElems : Nat → List Char → Option (PyList × List Char)
  | 0, _ => Option.none
  | Nat.succ fuel, cs =>
    match parseVal fuel cs with
    | some (v, rest1) =>
      (match skipWs rest1 with
       | [] => Option.none
       | c :: rest2 =>
         if c = ',' then (parseElems fuel rest2).map (fun p => (PyList.cons v p.1, p.2))
         else if c = ']' then some (PyList.cons v PyList.nil, rest2)
         else Option.none)
    | Option.none => Option.none

/-- Parse the members of a nonempty JSON object, up to and including the
closing brace. -/
def parseMembers : Nat → List Char → Option (PyDict × List Char)
  | 0, _ => Option.none
  | Nat.succ fuel, cs =>
    match skipWs cs with
    | [] => Option.none
    | c :: rest =>
      if c = '"' then
        match parseStrChars rest with
        | some (k, rest1) =>
          (match skipWs rest1 with
           | [] => Option.none
           | c2 :: rest2 =>
             if c2 = ':' then
               match parseVal fuel rest2 with
               | some (v, rest3) =>
                 (match skipWs rest3 with
                  | [] => Option.none
                  | c3 :: rest4 =>
                    if c3 = ',' then
                      (parseMembers fuel rest4).map
                        (fun p => (PyDict.cons (String.mk k) v p.1, p.2))
                    else if c3 = '}' then
                      some (PyDict.cons (String.mk k) v PyDict.nil, rest4)
                    else Option.none)
               | Option.none => Option.none
             else Option.none)
        | Option.none => Option.none
      else Option.none

end

mutual

/-- Canonical JSON encoding of a value: models `json.dumps` (without the
optional whitespace Python inserts after separators). -/
def dumpVal : Py → List Char
  | Py.none => ['n', 'u', 'l', 'l']
  | Py.bool true => ['t', 'r', 'u', 'e']
  | Py.bool false => ['f', 'a', 'l', 's', 'e']
  | Py.int n => dumpIntChars n
  | Py.str s => '"' :: (escapeChars s.data ++ ['"'])
  | Py.list xs => '[' :: dumpElemsChars xs
  | Py.dict d => '{' :: dumpMembersChars d

/-- Encoding of array elements, up to and including the closing bracket. -/
def dumpElemsChars : PyList → List Char
  | PyList.nil => [']']
  | PyList.cons v PyList.nil => dumpVal v ++ [']']
  | PyList.cons v tl => dumpVal v ++ ',' :: dumpElemsChars tl

/-- Encoding of object members, up to and including the closing brace. -/
def dumpMembersChars : PyDict → List Char
  | PyDict.nil => ['}']
  | PyDict.cons k v PyDict.nil =>
    '"' :: (escapeChars k.data ++ '"' :: ':' :: (dumpVal v ++ ['}']))
  | PyDict.cons k v tl =>
    '"' :: (escapeChars k.data ++ '"' :: ':' :: (dumpVal v ++ ',' :: dumpMembersChars tl))

end

mutual

/-- Fuel needed to parse the encoding of a value. -/
def sizeP : Py → Nat
  | Py.list xs => sizeL xs + 1
  | Py.dict d => sizeD d + 1
  | _ => 1

/-- Fuel needed to parse the encoding of array elements. -/
def sizeL : PyList → Nat
  | PyList.nil => 1
  | PyList.cons v tl => Nat.max (sizeP v) (sizeL tl) + 1

/-- Fuel needed to parse the encoding of object members. -/
def sizeD : PyDict → Nat
  | PyDict.nil => 1
  | PyDict.cons _ v tl => Nat.max (sizeP v) (sizeD tl) + 1

end

theorem sizeP_pos (v : Py) : 1 ≤ sizeP v := by
  cases v <;> simp [sizeP]

theorem sizeL_pos (xs : PyList) : 1 ≤ sizeL xs := by
  cases xs <;> simp [sizeL]

theorem sizeD_pos (d : PyDict) : 1 ≤ sizeD d := by
  cases d <;> simp [sizeD]

theorem string_mk_data (s : String) : String.mk s.data = s := rfl

theorem dumpNatChars_head (n : Nat) :
    ∃ c cs, dumpNatChars n = c :: cs ∧ c.isDigit = true := by
  cases h : dumpNatChars n with
  | nil => exact absurd h (dumpNatChars_ne_nil n)
  | cons a l =>
    refine ⟨a, l, rfl, ?_⟩
    have := dumpNatChars_all_digits n
    rw [h] at this
    exact this a (by simp)

theorem dumpVal_head (v : Py) :
    ∃ c cs, dumpVal v = c :: cs ∧ isWs c = false ∧ c ≠ ']' ∧ c ≠ '}' := by
  cases v with
  | none =>
    exact ⟨'n', ['u', 'l', 'l'], by simp [dumpVal], by decide, by decide, by decide⟩
  | bool b =>
    cases b with
    | true =>
      exact ⟨'t', ['r', 'u', 'e'], by simp [dumpVal], by decide, by decide, by decide⟩
    | false =>
      exact ⟨'f', ['a', 'l', 's', 'e'], by simp [dumpVal], by decide, by decide, by decide⟩
  | int n =>
    by_cases hn : n < 0
    · exact ⟨'-', dumpNatChars (-n).toNat, by simp [dumpVal, dumpIntChars, hn],
        by decide, by decide, by decide⟩
    · obtain ⟨c, cs, hd, hdig⟩ := dumpNatChars_head n.toNat
      obtain ⟨_, _, _, _, _, _, _, hrb, hcb, _, _, hws⟩ := digit_not_special hdig
      exact ⟨c, cs, by simp [dumpVal, dumpIntChars, hn, hd], hws, hrb, hcb⟩
  | str s =>
    exact ⟨'"', escapeChars s.data ++ ['"'], by simp [dumpVal], by decide, by decide,
      by decide⟩
  | list xs =>
    exact ⟨'[', dumpElemsChars xs, by simp [dumpVal], by decide, by decide, by decide⟩
  | dict d =>
    exact ⟨'{', dumpMembersChars d, by simp [dumpVal], by decide, by decide, by decide⟩

theorem max_le_add (x y : Nat) : Nat.max x y ≤ x + y :=
  Nat.max_le.mpr ⟨Nat.le_add_right _ _, Nat.le_add_left _ _⟩

mutual

theorem sizeP_le_dump (v : Py) : sizeP v ≤ 2 * (dumpVal v).length := by
  cases v with
  | none => simp [sizeP, dumpVal]
  | bool b => cases b <;> simp [sizeP, dumpVal]
  | int n =>
    obtain ⟨c, cs, hd, _, _, _⟩ := dumpVal_head (Py.int n)
    have : 1 ≤ (dumpVal (Py.int n)).length := by rw [hd]; simp
    simp only [sizeP]
    omega
  | str s => simp [sizeP, dumpVal]; omega
  | list xs =>
    have := sizeL_le_dump xs
    simp only [sizeP, dumpVal, List.length_cons]
    omega
  | dict d =>
    have := sizeD_le_dump d
    simp only [sizeP, dumpVal, List.length_cons]
    omega

theorem sizeL_le_dump (xs : PyList) : sizeL xs ≤ 2 * (dumpElemsChars xs).length := by
  cases xs with
  | nil => simp [sizeL, dumpElemsChars]
  | cons v tl =>
    have h1 := sizeP_le_dump v
    have h2 : 1 ≤ (dumpVal v).length := by
      obtain ⟨c, cs, hd, _, _, _⟩ := dumpVal_head v
      rw [hd]; simp
    cases tl with
    | nil =>
      have hm := max_le_add (sizeP v) (sizeL PyList.nil)
      simp only [sizeL, dumpElemsChars, List.length_append, List.length_cons,
        List.length_nil] at hm ⊢
      omega
    | cons hd2 tl2 =>
      have h3 := sizeL_le_dump (PyList.cons hd2 tl2)
      have h4 : 1 ≤ sizeL (PyList.cons hd2 tl2) := sizeL_pos _
      have hm := max_le_add (sizeP v) (sizeL (PyList.cons hd2 tl2))
      simp only [sizeL, dumpElemsChars, List.length_append, List.length_cons] at h3 hm ⊢
      omega

theorem sizeD_le_dump (d : PyDict) : sizeD d ≤ 2 * (dumpMembersChars d).length := by
  cases d with
  | nil => simp [sizeD, dumpMembersChars]
  | cons k v tl =>
    have h1 := sizeP_le_dump v
    have h2 : 1 ≤ (dumpVal v).length := by
      obtain ⟨c, cs, hd, _, _, _⟩ := dumpVal_head v
      rw [hd]; simp
    cases tl with
    | nil =>
      have hm := max_le_add (sizeP v) (sizeD PyDict.nil)
      simp only [sizeD, dumpMembersChars, List.length_append, List.length_cons,
        List.length_nil] at hm ⊢
      omega
    | cons k2 v2 tl2 =>
      have h3 := sizeD_le_dump (PyDict.cons k2 v2 tl2)
      have h4 : 1 ≤ sizeD (PyDict.cons k2 v2 tl2) := sizeD_pos _
      have hm := max_le_add (sizeP v) (sizeD (PyDict.cons k2 v2 tl2))
      simp only [sizeD, dumpMembersChars, List.length_append, List.length_cons] at h3 hm ⊢
      omega

end

theorem parseVal_digit_start {c : Char} (hdig : c.isDigit = true) (fuel : Nat)
    (cs : List Char) :
    parseVal (fuel + 1) (c :: cs)
      = (parseNum (c :: cs)).map (fun p => (Py.int p.1, p.2)) := by
  obtain ⟨h1, h2, h3, h4, h5, h6, _, _, _, _, _, hws⟩ := digit_not_special hdig
  rw [parseVal]
  rw [skipWs_cons_of_not_ws hws]
  simp [h1, h2, h3, h4, h5, h6, hdig]

theorem parseVal_succ_lbracket (fuel : Nat) {c2 : Char} (hws2 : isWs c2 = false)
    (h2 : c2 ≠ ']') (l : List Char) :
    parseVal (fuel + 1) ('[' :: c2 :: l)
      = (parseElems fuel (c2 :: l)).map (fun p => (Py.list p.1, p.2)) := by
  rw [parseVal]
  rw [show skipWs ('[' :: c2 :: l) = '[' :: c2 :: l from skipWs_cons_of_not_ws (by decide) _]
  simp [skipWs_cons_of_not_ws hws2, h2]

theorem parseVal_succ_lbrace (fuel : Nat) {c2 : Char} (hws2 : isWs c2 = false)
    (h2 : c2 ≠ '}') (l : List Char) :
    parseVal (fuel + 1) ('{' :: c2 :: l)
      = (parseMembers fuel (c2 :: l)).map (fun p => (Py.dict p.1, p.2)) := by
  rw [parseVal]
  rw [show skipWs ('{' :: c2 :: l) = '{' :: c2 :: l from skipWs_cons_of_not_ws (by decide) _]
  simp [skipWs_cons_of_not_ws hws2, h2]

theorem dumpElemsChars_cons_head (hd : Py) (tl : PyList) :
    ∃ c cs, dumpElemsChars (PyList.cons hd tl) = c :: cs ∧ isWs c = false ∧ c ≠ ']' := by
  obtain ⟨c, cs, hdv, hws, hrb, _⟩ := dumpVal_head hd
  cases tl with
  | nil => exact ⟨c, cs ++ [']'], by simp [dumpElemsChars, hdv], hws, hrb⟩
  | cons h2 t2 =>
    exact ⟨c, cs ++ ',' :: dumpElemsChars (PyList.cons h2 t2),
      by simp [dumpElemsChars, hdv], hws, hrb⟩

theorem dumpMembersChars_cons_head (k : String) (v : Py) (tl : PyDict) :
    ∃ l, dumpMembersChars (PyDict.cons k v tl) = '"' :: l := by
  cases tl with
  | nil =>
    exact ⟨escapeChars k.data ++ '"' :: ':' :: (dumpVal v ++ ['}']),
      by simp [dumpMembersChars]⟩
  | cons k2 v2 t2 =>
    exact ⟨escapeChars k.data ++ '"' :: ':'
        :: (dumpVal v ++ ',' :: dumpMembersChars (PyDict.cons k2 v2 t2)),
      by simp [dumpMembersChars]⟩

theorem parse_dump (fuel : Nat) :
    (∀ v rest, sizeP v ≤ fuel → headNotDigit rest = true →
      parseVal fuel (dumpVal v ++ rest) = some (v, rest)) ∧
    (∀ xs rest, xs ≠ PyList.nil → sizeL xs ≤ fuel →
      parseElems fuel (dumpElemsChars xs ++ rest) = some (xs, rest)) ∧
    (∀ d rest, d ≠ PyDict.nil → sizeD d ≤ fuel →
      parseMembers fuel (dumpMembersChars d ++ rest) = some (d, rest)) := by
  induction fuel with
  | zero =>
    refine ⟨fun v rest hsz _ => ?_, fun xs rest _ hsz => ?_, fun d rest _ hsz => ?_⟩
    · exact absurd hsz (by have := sizeP_pos v; omega)
    · exact absurd hsz (by have := sizeL_pos xs; omega)
    · exact absurd hsz (by have := sizeD_pos d; omega)
  | succ fuel ih =>
    obtain ⟨ihV, ihE, ihM⟩ := ih
    refine ⟨?_, ?_, ?_⟩
    · intro v rest hsz hrest
      cases v with
      | none =>
        rw [show dumpVal Py.none ++ rest = 'n' :: 'u' :: 'l' :: 'l' :: rest from by
          simp [dumpVal]]
        rw [parseVal]
        simp [skipWs, isWs]
      | bool b =>
        cases b with
        | true =>
          rw [show dumpVal (Py.bool true) ++ rest = 't' :: 'r' :: 'u' :: 'e' :: rest from by
            simp [dumpVal]]
          rw [parseVal]
          simp [skipWs, isWs]
        | false =>
          rw [show dumpVal (Py.bool false) ++ rest
              = 'f' :: 'a' :: 'l' :: 's' :: 'e' :: rest from by simp [dumpVal]]
          rw [parseVal]
          simp [skipWs, isWs]
      | int n =>
        by_cases hn : n < 0
        · have hp := parseNatNum_dumpNatChars (-n).toNat rest hrest
          rw [show dumpVal (Py.int n) ++ rest
              = '-' :: (dumpNatChars (-n).toNat ++ rest) from by
            simp [dumpVal, dumpIntChars, hn]]
          rw [parseVal, skipWs_cons_of_not_ws (by decide)]
          simp [parseNum, hp]
          omega
        · obtain ⟨c, cs, hd, hdig⟩ := dumpNatChars_head n.toNat
          have h7 : c ≠ '-' := (digit_not_special hdig).2.2.2.2.2.2.1
          have hp := parseNatNum_dumpNatChars n.toNat rest hrest
          rw [hd, List.cons_append] at hp
          rw [show dumpVal (Py.int n) ++ rest = c :: (cs ++ rest) from by
            simp [dumpVal, dumpIntChars, hn, hd]]
          rw [parseVal_digit_start hdig]
          simp [parseNum, h7, hp]
          omega
      | str s =>
        rw [show dumpVal (Py.str s) ++ rest
            = '"' :: (escapeChars s.data ++ '"' :: rest) from by simp [dumpVal]]
        rw [parseVal, skipWs_cons_of_not_ws (by decide)]
        simp [parseStrChars_escapeChars, string_mk_data]
      | list xs =>
        cases xs with
        | nil =>
          rw [show dumpVal (Py.list PyList.nil) ++ rest = '[' :: ']' :: rest from by
            simp [dumpVal, dumpElemsChars]]
          rw [parseVal]
          simp [skipWs, isWs]
        | cons hd tl =>
          obtain ⟨c2, cs2, hdE, hwsE, hrbE⟩ := dumpElemsChars_cons_head hd tl
          have hszL : sizeL (PyList.cons hd tl) ≤ fuel := by
            simp only [sizeP] at hsz; omega
          have hE := ihE (PyList.cons hd tl) rest (by simp) hszL
          rw [show dumpVal (Py.list (PyList.cons hd tl))
              = '[' :: dumpElemsChars (PyList.cons hd tl) from by simp [dumpVal]]
          rw [List.cons_append, hdE, List.cons_append]
          rw [parseVal_succ_lbracket fuel hwsE hrbE]
          rw [← List.cons_append, ← hdE, hE]
          rfl
      | dict d =>
        cases d with
        | nil =>
          rw [show dumpVal (Py.dict PyDict.nil) ++ rest = '{' :: '}' :: rest from by
            simp [dumpVal, dumpMembersChars]]
          rw [parseVal]
          simp [skipWs, isWs]
        | cons k v tl =>
          obtain ⟨l, hdM⟩ := dumpMembersChars_cons_head k v tl
          have hszD : sizeD (PyDict.cons k v tl) ≤ fuel := by
            simp only [sizeP] at hsz; omega
          have hM := ihM (PyDict.cons k v tl) rest (by simp) hszD
          rw [show dumpVal (Py.dict (PyDict.cons k v tl))
              = '{' :: dumpMembersChars (PyDict.cons k v tl) from by simp [dumpVal]]
          rw [List.cons_append, hdM, List.cons_append]
          rw [parseVal_succ_lbrace fuel (by decide) (by decide)]
          rw [← List.cons_append, ← hdM, hM]
          rfl
    · intro xs rest hne hsz
      cases xs with
      | nil => exact absurd rfl hne
      | cons v tl =>
        have hm : Nat.max (sizeP v) (sizeL tl) ≤ fuel := by
          simp only [sizeL] at hsz; omega
        have hszv : sizeP v ≤ fuel := le_trans (Nat.le_max_left _ _) hm
        have hsztl : sizeL tl ≤ fuel := le_trans (Nat.le_max_right _ _) hm
        cases tl with
        | nil =>
          have hv := ihV v (']' :: rest) hszv (by simp [headNotDigit])
          rw [show dumpElemsChars (PyList.cons v PyList.nil) ++ rest
              = dumpVal v ++ (']' :: rest) from by simp [dumpElemsChars]]
          rw [parseElems, hv]
          simp [skipWs, isWs]
        | cons h2 t2 =>
          have hv := ihV v (',' :: (dumpElemsChars (PyList.cons h2 t2) ++ rest)) hszv
            (by simp [headNotDigit])
          have hE2 := ihE (PyList.cons h2 t2) rest (by simp) hsztl
          rw [show dumpElemsChars (PyList.cons v (PyList.cons h2 t2)) ++ rest
              = dumpVal v ++ (',' :: (dumpElemsChars (PyList.cons h2 t2) ++ rest)) from by
            simp [dumpElemsChars]]
          rw [parseElems, hv]
          simp [skipWs, isWs, hE2]
    · intro d rest hne hsz
      cases d with
      | nil => exact absurd rfl hne
      | cons k v tl =>
        have hm : Nat.max (sizeP v) (sizeD tl) ≤ fuel := by
          simp only [sizeD] at hsz; omega
        have hszv : sizeP v ≤ fuel := le_trans (Nat.le_max_left _ _) hm
        have hsztl : sizeD tl ≤ fuel := le_trans (Nat.le_max_right _ _) hm
        cases tl with
        | nil =>
          have hv := ihV v ('}' :: rest) hszv (by simp [headNotDigit])
          rw [show dumpMembersChars (PyDict.cons k v PyDict.nil) ++ rest
              = '"' :: (escapeChars k.data ++ '"' :: ':' :: (dumpVal v ++ '}' :: rest))
              from by simp [dumpMembersChars]]
          rw [parseMembers, skipWs_cons_of_not_ws (by decide)]
          simp [parseStrChars_escapeChars, skipWs, isWs, hv, string_mk_data]
        | cons k2 v2 t2 =>
          have hv := ihV v (',' :: (dumpMembersChars (PyDict.cons k2 v2 t2) ++ rest)) hszv
            (by simp [headNotDigit])
          have hM2 := ihM (PyDict.cons k2 v2 t2) rest (by simp) hsztl
          rw [show dumpMembersChars (PyDict.cons k v (PyDict.cons k2 v2 t2)) ++ rest
              = '"' :: (escapeChars k.data ++ '"' :: ':'
                  :: (dumpVal v ++ ',' :: (dumpMembersChars (PyDict.cons k2 v2 t2) ++ rest)))
              from by simp [dumpMembersChars]]
          rw [parseMembers, skipWs_cons_of_not_ws (by decide)]
          simp [parseStrChars_escapeChars, skipWs, isWs, hv, hM2, string_mk_data]

theorem data_string_mk (l : List Char) : (String.mk l).data = l := rfl

/-- Models `json.loads` on a Python `str`: parse one JSON value, allowing
surrounding whitespace; any other leftover input is a parse error.
`Py.none` is the decoding of the JSON literal `null`. -/
def loads (s : String) : Option Py :=
  match parseVal (2 * s.data.length + 2) s.data with
  | some (v, rest) => if (skipWs rest).isEmpty then some v else Option.none
  | Option.none => Option.none

/-- Models `json.dumps` on the values of the `Py` model (canonical form,
without the whitespace Python inserts after separators). -/
def dumps (v : Py) : String := String.mk (dumpVal v)

/-- `json.loads` inverts `json.dumps`: the round-trip property of the
JSON model. -/
theorem loads_dumps (v : Py) : loads (dumps v) = some v := by
  have hsz : sizeP v ≤ 2 * (dumpVal v).length + 2 :=
    le_trans (sizeP_le_dump v) (by omega)
  have h := (parse_dump (2 * (dumpVal v).length + 2)).1 v [] hsz (by decide)
  rw [List.append_nil] at h
  simp [loads, dumps, data_string_mk, h, skipWs]

/-- Translation of `maybe_json` (lines 19-23): `json.loads` succeeds only on
strings, so a non-string argument raises `TypeError`, is caught by the
blanket `except Exception`, and the value is returned unchanged; a string is
decoded if it is valid JSON and returned unchanged otherwise.  The function
is total: the coercion never raises. -/
def maybe_json (value : Py) : Py :=
  match value with
  | Py.str s =>
    match loads s with
    | some j => j
    | Option.none => Py.str s
  | v => v

/-- Translation of the `LspMessage` attrs class (lines 26-53).  `timestamp`
is an abstract instant (`Nat`); the optional fields hold `Py.none` when the
Python attribute is `None` (absent). -/
structure LspMessage where
  session : String
  timestamp : Nat
  source : String
  id : Py
  method : Py
  params : Py
  result : Py
  error : Py
deriving DecidableEq

/-- The attrs-generated `LspMessage.__init__`: the `converter=maybe_json`
declared on `params`, `result` and `error` runs on every construction. -/
def mkLspMessage (session : String) (timestamp : Nat) (source : String)
    (id method params result error : Py) : LspMessage :=
  { session := session, timestamp := timestamp, source := source, id := id,
    method := method, params := maybe_json params, result := maybe_json result,
    error := maybe_json error }

/-- `v is not None` in Python, on the embedded values. -/
def Py.isNone : Py → Bool
  | Py.none => true
  | _ => false

/-- Translation of the `is_request` property (lines 71-73). -/
def LspMessage.is_request (m : LspMessage) : Bool :=
  !m.id.isNone && !m.params.isNone

/-- Translation of the `is_response` property (lines 75-78). -/
def LspMessage.is_response (m : LspMessage) : Bool :=
  let result_or_error := !m.result.isNone || !m.error.isNone
  !m.id.isNone && result_or_error

/-- Translation of the `is_notification` property (lines 80-82). -/
def LspMessage.is_notification (m : LspMessage) : Bool :=
  m.id.isNone && !m.params.isNone

/-- The raw JSON-RPC field mapping handed to `from_rpc` (a Python `Mapping`). -/
abbrev RawMapping := List (String × Py)

/-- Python's `mapping.get(key, None)`: the stored value, or `None` when the
key is missing. -/
def RawMapping.get (m : RawMapping) (k : String) : Py :=
  match m with
  | [] => Py.none
  | (k2, v) :: tl => if k2 = k then v else RawMapping.get tl k

/-- The `ValueError` that `datetime.fromisoformat` raises on a string that
is not ISO-8601 (the spec's `FormatError`-kind condition). -/
inductive FormatError where
  | invalidIsoFormat (text : String)
deriving DecidableEq

/-- Translation of `LspMessage.from_rpc` (lines 55-69), parameterised by
`fromiso`, the model of the standard-library `datetime.fromisoformat`
(`Option.none` models the `ValueError` on an unparsable string).  The
timestamp is parsed before the instance is constructed, so a failure
aborts construction and no message is produced. -/
def LspMessage.from_rpc (fromiso : String → Option Nat) (session : String)
    (timestamp : String) (source : String) (message : RawMapping) :
    Except FormatError LspMessage :=
  match fromiso timestamp with
  | Option.none => Except.error (FormatError.invalidIsoFormat timestamp)
  | some t =>
    Except.ok (mkLspMessage session t source
      (message.get "id") (message.get "method") (message.get "params")
      (message.get "result") (message.get "error"))

/-- Attribute assignment `msg.params = value`, which Python permits on this
class: `@attrs.define` (line 26) generates a *mutable* class (unlike
`@attrs.frozen`), whose generated `__setattr__` runs the field's declared
converter on the assigned value. -/
def LspMessage.set_params (m : LspMessage) (value : Py) : LspMessage :=
  { m with params := maybe_json value }

/-- The message dict re-encoded to its serialized raw form, per the spec's
idempotence property ("re-parsing the output's serialized raw form (if
re-encoded)"): `id` and `method` are carried over, and each coerced payload
field is re-encoded with `json.dumps`. -/
def LspMessage.reencode (m : LspMessage) : RawMapping :=
  [("id", m.id), ("method", m.method),
   ("params", Py.str (dumps m.params)),
   ("result", Py.str (dumps m.result)),
   ("error", Py.str (dumps m.error))]

/-- The slice of `logging.LogRecord` that `LspHandler.emit` reads:
`record.args` (a `Py.dict` when the record carries a JSON-RPC message) and
the `Message-Session` / `Message-Timestamp` / `Message-Source` entries of
`record.__dict__` (modelled as present, as the logging integration supplies
them). -/
structure LogRecord where
  args : Py
  msgSession : String
  msgTimestamp : String
  msgSource : String

/-- A `Py.dict` viewed as the `Mapping` that `from_rpc` consumes. -/
def PyDict.toMapping : PyDict → RawMapping
  | PyDict.nil => []
  | PyDict.cons k v tl => (k, v) :: PyDict.toMapping tl

/-- Translation of `LspHandler.emit` (lines 94-108).  The result is the list
of arguments with which `handle_message` is invoked (in order), and
`Except.error` models an exception propagating out of `emit` (in which case
`handle_message` is not invoked). -/
def emit (fromiso : String → Option Nat) (record : LogRecord) :
    Except FormatError (List LspMessage) :=
  match record.args with
  | Py.dict d =>
    match LspMessage.from_rpc fromiso record.msgSession record.msgTimestamp
        record.msgSource d.toMapping with
    | Except.ok m => Except.ok [m]
    | Except.error e => Except.error e
  | _ => Except.ok []

theorem Py.isNone_iff (v : Py) : v.isNone = true ↔ v = Py.none := by
  cases v <;> simp [Py.isNone]

theorem Py.isNone_false_iff (v : Py) : v.isNone = false ↔ v ≠ Py.none := by
  cases v <;> simp [Py.isNone]

/-- A concrete sample timestamp parser, standing in for
`datetime.fromisoformat` in the witness instantiations. -/
def fromisoSample : String → Option Nat := fun s =>
  if s = "2024-01-01T00:00:00" then some 1704067200 else Option.none

/-- C1: for every constructed message the classification predicates are
computed exactly per the spec table: `is_request` iff `id` present and
`params` present; `is_response` iff `id` present and (`result` present or
`error` present); `is_notification` iff `id` absent and `params` present
(presence of a field meaning it is not `None`). -/
theorem classification_matches_spec_table (m : LspMessage) :
    (m.is_request = true ↔ m.id ≠ Py.none ∧ m.params ≠ Py.none) ∧
    (m.is_response = true ↔
      m.id ≠ Py.none ∧ (m.result ≠ Py.none ∨ m.error ≠ Py.none)) ∧
    (m.is_notification = true ↔ m.id = Py.none ∧ m.params ≠ Py.none) := by
  refine ⟨?_, ?_, ?_⟩ <;>
    simp [LspMessage.is_request, LspMessage.is_response, LspMessage.is_notification,
      Bool.and_eq_true, Bool.or_eq_true, Bool.not_eq_true', Py.isNone_iff,
      Py.isNone_false_iff]

/-- C2: on every construction, each of `params`, `result` and `error` is the
`maybe_json` coercion of the raw value supplied: a string holding valid JSON
is decoded, any other value (non-JSON string or already-structured value) is
kept unchanged; the coercion is a total function, so it never raises. -/
theorem payload_coercion_spec (session : String) (t : Nat) (source : String)
    (id method p r e : Py) :
    ((mkLspMessage session t source id method p r e).params = maybe_json p ∧
     (mkLspMessage session t source id method p r e).result = maybe_json r ∧
     (mkLspMessage session t source id method p r e).error = maybe_json e) ∧
    (∀ s j, loads s = some j → maybe_json (Py.str s) = j) ∧
    (∀ s, loads s = Option.none → maybe_json (Py.str s) = Py.str s) ∧
    (∀ v, (∀ s, v ≠ Py.str s) → maybe_json v = v) := by
  refine ⟨⟨rfl, rfl, rfl⟩, ?_, ?_, ?_⟩
  · intro s j h
    simp [maybe_json, h]
  · intro s h
    simp [maybe_json, h]
  · intro v hv
    cases v <;> first | rfl | exact absurd rfl (hv _)

/-- Witness for C2 at concrete inputs: a JSON string is decoded, a non-JSON
string is kept verbatim, a non-string is kept verbatim. -/
theorem payload_coercion_spec_witness :
    maybe_json (Py.str "[1]") = Py.list (PyList.cons (Py.int 1) PyList.nil) ∧
    maybe_json (Py.str "oops") = Py.str "oops" ∧
    maybe_json (Py.int 3) = Py.int 3 := by
  have h := payload_coercion_spec "s" 0 "client" Py.none Py.none Py.none Py.none Py.none
  exact ⟨h.2.1 "[1]" _ (by rfl), h.2.2.1 "oops" (by rfl),
    h.2.2.2 (Py.int 3) (by intro s; simp)⟩

/-- C3: a message in which `params`, `result` and `error` are all absent
satisfies none of the three classification predicates; the predicates are
total functions, so evaluating them cannot raise. -/
theorem no_payload_classifies_as_nothing (m : LspMessage) (hp : m.params = Py.none)
    (hr : m.result = Py.none) (he : m.error = Py.none) :
    m.is_request = false ∧ m.is_response = false ∧ m.is_notification = false := by
  simp [LspMessage.is_request, LspMessage.is_response, LspMessage.is_notification,
    hp, hr, he, Py.isNone]

/-- Witness for C3: a concrete message with all payload fields absent. -/
theorem no_payload_classifies_as_nothing_witness :
    (mkLspMessage "s" 0 "client" (Py.int 1) (Py.str "m") Py.none Py.none
        Py.none).is_request = false ∧
    (mkLspMessage "s" 0 "client" (Py.int 1) (Py.str "m") Py.none Py.none
        Py.none).is_response = false ∧
    (mkLspMessage "s" 0 "client" (Py.int 1) (Py.str "m") Py.none Py.none
        Py.none).is_notification = false :=
  no_payload_classifies_as_nothing _ rfl rfl rfl

/-- C4: `from_rpc` fails with the `FormatError`-kind condition (the
`ValueError` of `datetime.fromisoformat`) exactly when the timestamp string
is unparsable, and then construction aborts with no message produced; on
every parsable timestamp string the constructed message's timestamp is the
parsed instant. -/
theorem timestamp_gates_construction (fromiso : String → Option Nat)
    (session ts source : String) (raw : RawMapping) :
    (fromiso ts = Option.none →
      LspMessage.from_rpc fromiso session ts source raw
        = Except.error (FormatError.invalidIsoFormat ts)) ∧
    (∀ t, fromiso ts = some t →
      ∃ m, LspMessage.from_rpc fromiso session ts source raw = Except.ok m ∧
        m.timestamp = t) := by
  constructor
  · intro h
    simp [LspMessage.from_rpc, h]
  · intro t h
    exact ⟨mkLspMessage session t source (raw.get "id") (raw.get "method")
        (raw.get "params") (raw.get "result") (raw.get "error"),
      by simp [LspMessage.from_rpc, h], rfl⟩

/-- Witness for C4: a malformed timestamp aborts construction; a parsable
one yields a message carrying the parsed instant. -/
theorem timestamp_gates_construction_witness :
    LspMessage.from_rpc fromisoSample "s" "garbage" "client" []
      = Except.error (FormatError.invalidIsoFormat "garbage") ∧
    (∃ m, LspMessage.from_rpc fromisoSample "s" "2024-01-01T00:00:00" "client" []
      = Except.ok m ∧ m.timestamp = 1704067200) := by
  constructor
  · exact (timestamp_gates_construction fromisoSample "s" "garbage" "client" []).1
      (by rfl)
  · exact (timestamp_gates_construction fromisoSample "s" "2024-01-01T00:00:00"
      "client" []).2 1704067200 (by rfl)

/-- C7: `from_rpc` is purely functional and deterministic.  In this
embedding every operation it performs (`dict.get`, JSON decoding, timestamp
parsing, record construction) is a pure function, so two calls agree
whenever their inputs agree; in particular the result depends on the raw
mapping only through lookups, so any two mappings with equal lookups (equal
inputs) produce equal messages, and the input mapping itself is never
modified (it is consumed as an immutable value). -/
theorem from_rpc_deterministic (fromiso : String → Option Nat)
    (session ts source : String) (raw1 raw2 : RawMapping)
    (h : ∀ k, raw1.get k = raw2.get k) :
    LspMessage.from_rpc fromiso session ts source raw1
      = LspMessage.from_rpc fromiso session ts source raw2 := by
  cases hfi : fromiso ts <;> simp [LspMessage.from_rpc, hfi, h]

/-- Witness for C7: two observably equal mappings (one with a shadowed
duplicate key) parse to the same result. -/
theorem from_rpc_deterministic_witness :
    LspMessage.from_rpc fromisoSample "s" "2024-01-01T00:00:00" "client"
        [("id", Py.int 1), ("id", Py.int 2)]
      = LspMessage.from_rpc fromisoSample "s" "2024-01-01T00:00:00" "client"
        [("id", Py.int 1)] := by
  apply from_rpc_deterministic
  intro k
  by_cases hk : ("id" : String) = k <;> simp [RawMapping.get, hk]

/-- C8 (implicit): `from_rpc` does not validate the source tag: for every
string, including ones that are neither `"client"` nor `"server"`,
construction succeeds (given a parsable timestamp) and the message stores
the supplied string verbatim. -/
theorem source_stored_verbatim (fromiso : String → Option Nat)
    (session ts source : String) (raw : RawMapping) (t : Nat)
    (h : fromiso ts = some t) :
    ∃ m, LspMessage.from_rpc fromiso session ts source raw = Except.ok m ∧
      m.source = source :=
  ⟨mkLspMessage session t source (raw.get "id") (raw.get "method")
      (raw.get "params") (raw.get "result") (raw.get "error"),
    by simp [LspMessage.from_rpc, h], rfl⟩

/-- Witness for C8: a source tag that is neither of the two recognized
values passes through unvalidated. -/
theorem source_stored_verbatim_witness :
    ∃ m, LspMessage.from_rpc fromisoSample "s" "2024-01-01T00:00:00"
        "neither-client-nor-server" [] = Except.ok m ∧
      m.source = "neither-client-nor-server" :=
  source_stored_verbatim fromisoSample "s" "2024-01-01T00:00:00"
    "neither-client-nor-server" [] 1704067200 (by rfl)

/-- C9 (implicit): a raw field holding the string `"null"` JSON-decodes to
`None` and so becomes absent: `is_request` is false (whatever `id` is),
`is_notification` is false (whatever `id` is), and when both `result` and
`error` held `"null"`, `is_response` is false. -/
theorem json_null_payload_is_absent (fromiso : String → Option Nat)
    (session ts source : String) (raw : RawMapping) (m : LspMessage)
    (hok : LspMessage.from_rpc fromiso session ts source raw = Except.ok m) :
    (raw.get "params" = Py.str "null" →
      m.params = Py.none ∧ m.is_request = false ∧ m.is_notification = false) ∧
    (raw.get "result" = Py.str "null" → raw.get "error" = Py.str "null" →
      m.is_response = false) := by
  have hnull : maybe_json (Py.str "null") = Py.none := by rfl
  unfold LspMessage.from_rpc at hok
  cases hfi : fromiso ts with
  | none =>
    rw [hfi] at hok
    cases hok
  | some t =>
    rw [hfi] at hok
    injection hok with hm
    constructor
    · intro hp
      rw [← hm]
      simp [mkLspMessage, hp, hnull, LspMessage.is_request, LspMessage.is_notification,
        Py.isNone]
    · intro hr he
      rw [← hm]
      simp [mkLspMessage, hr, he, hnull, LspMessage.is_response, Py.isNone]

/-- Witness for C9: concrete raw mappings whose payload fields hold the
string `"null"`. -/
theorem json_null_payload_is_absent_witness :
    (∃ m, LspMessage.from_rpc fromisoSample "s" "2024-01-01T00:00:00" "client"
        [("id", Py.int 1), ("params", Py.str "null"), ("result", Py.str "null"),
         ("error", Py.str "null")] = Except.ok m ∧
      m.params = Py.none ∧ m.is_request = false ∧ m.is_notification = false ∧
      m.is_response = false) := by
  refine ⟨mkLspMessage "s" 1704067200 "client" (Py.int 1) Py.none
      (Py.str "null") (Py.str "null") (Py.str "null"), by rfl, ?_⟩
  have h := json_null_payload_is_absent fromisoSample "s" "2024-01-01T00:00:00" "client"
    [("id", Py.int 1), ("params", Py.str "null"), ("result", Py.str "null"),
     ("error", Py.str "null")]
    (mkLspMessage "s" 1704067200 "client" (Py.int 1) Py.none
      (Py.str "null") (Py.str "null") (Py.str "null"))
    (by rfl)
  obtain ⟨h1, h2⟩ := h
  obtain ⟨ha, hb, hc⟩ := h1 (by rfl)
  exact ⟨ha, hb, hc, h2 (by rfl) (by rfl)⟩

/-- C5 counterexample: the class is declared with `@attrs.define`, which
(unlike `@attrs.frozen`) generates a mutable class, so attribute assignment
is an operation the program's class supports and it changes the assigned
field: assigning to `params` on a concrete constructed message yields a
different `params`.  Hence "no operation of the program can change any of
its fields" is false. -/
theorem message_mutation_counterexample :
    (LspMessage.set_params
        (mkLspMessage "s" 0 "client" (Py.int 1) Py.none Py.none Py.none Py.none)
        (Py.str "[]")).params
      ≠ (mkLspMessage "s" 0 "client" (Py.int 1) Py.none Py.none Py.none
          Py.none).params := by
  decide

/-- C5 (amended): immutability is not enforced — attribute assignment on the
`attrs.define`-generated class changes exactly the assigned field, running
the declared `maybe_json` converter on the new value, and leaves every other
field unchanged; no function of the fragment itself ever mutates a
constructed message. -/
theorem set_params_updates_only_params (m : LspMessage) (v : Py) :
    (m.set_params v).params = maybe_json v ∧
    (m.set_params v).session = m.session ∧
    (m.set_params v).timestamp = m.timestamp ∧
    (m.set_params v).source = m.source ∧
    (m.set_params v).id = m.id ∧
    (m.set_params v).method = m.method ∧
    (m.set_params v).result = m.result ∧
    (m.set_params v).error = m.error :=
  ⟨rfl, rfl, rfl, rfl, rfl, rfl, rfl, rfl⟩

/-- C6: parsing is idempotent — re-encoding the fields of a parsed message
to their serialized raw form and parsing again (same session, timestamp
text and source) yields the same structured object. -/
theorem reparse_reencoded (fromiso : String → Option Nat)
    (session ts source : String) (raw : RawMapping) (m : LspMessage)
    (hok : LspMessage.from_rpc fromiso session ts source raw = Except.ok m) :
    LspMessage.from_rpc fromiso session ts source m.reencode = Except.ok m := by
  have hmj : ∀ w : Py, maybe_json (Py.str (dumps w)) = w := fun w => by
    simp [maybe_json, loads_dumps w]
  unfold LspMessage.from_rpc at hok ⊢
  cases hfi : fromiso ts with
  | none =>
    rw [hfi] at hok
    cases hok
  | some t =>
    rw [hfi] at hok
    injection hok with hm
    rw [← hm]
    simp [LspMessage.reencode, RawMapping.get, mkLspMessage, hmj]

/-- Witness for C6: a concrete parse, re-encode, re-parse cycle returning
the same message. -/
theorem reparse_reencoded_witness :
    LspMessage.from_rpc fromisoSample "s" "2024-01-01T00:00:00" "client"
        (mkLspMessage "s" 1704067200 "client" (Py.int 2) Py.none (Py.str "[1]")
          Py.none Py.none).reencode
      = Except.ok (mkLspMessage "s" 1704067200 "client" (Py.int 2) Py.none
          (Py.str "[1]") Py.none Py.none) :=
  reparse_reencoded fromisoSample "s" "2024-01-01T00:00:00" "client"
    [("id", Py.int 2), ("params", Py.str "[1]")] _ (by rfl)

/-- A concrete record whose `args` is a dict but whose timestamp string is
unparsable. -/
def badTimestampRecord : LogRecord :=
  { args := Py.dict PyDict.nil, msgSession := "s", msgTimestamp := "garbage",
    msgSource := "client" }

/-- C10 counterexample: a record whose `args` *is* a dict, on which `emit`
raises (the `ValueError` from `datetime.fromisoformat` propagates) instead
of invoking `handle_message`: the result is an error carrying no
invocation, not a single invocation — so "invokes `handle_message` exactly
once ... when the record's args is a dict" is false. -/
theorem emit_dict_args_counterexample :
    badTimestampRecord.args = Py.dict PyDict.nil ∧
    emit fromisoSample badTimestampRecord
      = Except.error (FormatError.invalidIsoFormat "garbage") :=
  ⟨rfl, rfl⟩

/-- C10 (amended): when the record's `args` is not a dict, `emit` returns
without invoking `handle_message` and without raising; when `args` is a
dict and parsing succeeds, `handle_message` is invoked exactly once with
the parsed message; when `args` is a dict and parsing raises, the exception
propagates out of `emit` and `handle_message` is not invoked. -/
theorem emit_invocation_behaviour (fromiso : String → Option Nat)
    (record : LogRecord) :
    ((∀ d, record.args ≠ Py.dict d) → emit fromiso record = Except.ok []) ∧
    (∀ d m, record.args = Py.dict d →
      LspMessage.from_rpc fromiso record.msgSession record.msgTimestamp
          record.msgSource d.toMapping = Except.ok m →
      emit fromiso record = Except.ok [m]) ∧
    (∀ d e, record.args = Py.dict d →
      LspMessage.from_rpc fromiso record.msgSession record.msgTimestamp
          record.msgSource d.toMapping = Except.error e →
      emit fromiso record = Except.error e) := by
  refine ⟨?_, ?_, ?_⟩
  · intro h
    unfold emit
    cases hargs : record.args with
    | dict d => exact absurd hargs (h d)
    | none => rfl
    | bool b => rfl
    | int n => rfl
    | str s => rfl
    | list xs => rfl
  · intro d m hd hok
    unfold emit
    rw [hd]
    simp [hok]
  · intro d e hd herr
    unfold emit
    rw [hd]
    simp [herr]

/-- Witness for C10 (amended): a non-dict record produces no invocation and
no error; a dict record with a parsable timestamp produces exactly one
invocation, carrying the parsed message. -/
theorem emit_invocation_behaviour_witness :
    emit fromisoSample
        { args := Py.int 0, msgSession := "s", msgTimestamp := "garbage",
          msgSource := "client" }
      = Except.ok [] ∧
    emit fromisoSample
        { args := Py.dict (PyDict.cons "id" (Py.int 7) PyDict.nil),
          msgSession := "s", msgTimestamp := "2024-01-01T00:00:00",
          msgSource := "server" }
      = Except.ok [mkLspMessage "s" 1704067200 "server" (Py.int 7) Py.none
          Py.none Py.none Py.none] := by
  constructor
  · exact (emit_invocation_behaviour fromisoSample
      { args := Py.int 0, msgSession := "s", msgTimestamp := "garbage",
        msgSource := "client" }).1 (by intro d; simp)
  · exact (emit_invocation_behaviour fromisoSample
      { args := Py.dict (PyDict.cons "id" (Py.int 7) PyDict.nil),
        msgSession := "s", msgTimestamp := "2024-01-01T00:00:00",
        msgSource := "server" }).2.1 (PyDict.cons "id" (Py.int 7) PyDict.nil)
      (mkLspMessage "s" 1704067200 "server" (Py.int 7) Py.none Py.none Py.none
        Py.none) rfl (by rfl)
